import Mathlib

/-!
# Verification of notion-sdk-js helper core (`src/helpers.ts`)

Shallow embedding of the cross-cutting helpers of the SDK:
pagination engine (`iteratePaginatedAPI` / `collectPaginatedAPI`),
identifier normalizer (`extractNotionId` / `formatUuid`),
rich-text renderer (`richTextToPlainText` / `richTextToMarkdown`),
object-shape discriminators (`isFullBlock` etc.) and the page property
extractor (`getPageProperty`).

JavaScript strings are modelled as `List Char`; JS `null`/`undefined`
are both modelled as `Option.none` (their truthiness and propagation
coincide in all the code paths embedded here).
-/

namespace NotionSdk

/-- Convert a Lean string literal into the `List Char` representation. -/
def str (s : String) : List Char := s.data

/-- The set of whitespace characters removed by JavaScript `String.prototype.trim`
(ECMAScript WhiteSpace ∪ LineTerminator). -/
def wsChars : List Char :=
  ['\t', '\n', '\x0b', '\x0c', '\r', ' ',
   '\u00a0', '\u1680',
   '\u2000', '\u2001', '\u2002', '\u2003', '\u2004', '\u2005',
   '\u2006', '\u2007', '\u2008', '\u2009', '\u200a',
   '\u2028', '\u2029', '\u202f', '\u205f', '\u3000', '\ufeff']

/-- Whether a character is trimmed by JS `trim()`. -/
def isWs (c : Char) : Bool := wsChars.contains c

/-- JS `String.prototype.trim`: strip leading and trailing whitespace. -/
def trim (l : List Char) : List Char :=
  ((l.dropWhile isWs).reverse.dropWhile isWs).reverse

/-- The character class `[0-9a-f]` under the `/i` (case-insensitive) regex flag. -/
def hexDigits : List Char := str "0123456789abcdefABCDEF"

/-- Membership in the case-insensitive hex character class. -/
def isHexCI (c : Char) : Bool := hexDigits.contains c

/-- Lower-case hex digits (the output alphabet of the normalizer). -/
def hexLowerDigits : List Char := str "0123456789abcdef"

/-- Membership in the lower-case hex character class. -/
def isHexLower (c : Char) : Bool := hexLowerDigits.contains c

/-- JS `String.prototype.toLowerCase` on a modelled string
(ASCII case mapping, which is all the embedded code paths exercise). -/
def toLowerStr (l : List Char) : List Char := l.map Char.toLower

/-! ## Pagination engine (`iteratePaginatedAPI`, `collectPaginatedAPI`)

```ts
export async function* iteratePaginatedAPI<Args extends PaginatedArgs, Item>(
  listFn: (args: Args) => Promise<PaginatedList<Item>>,
  firstPageArgs: Args
): AsyncIterableIterator<Item> {
  let nextCursor: string | null | undefined = firstPageArgs.start_cursor
  do {
    const response: PaginatedList<Item> = await listFn({
      ...firstPageArgs,
      start_cursor: nextCursor,
    })
    yield* response.results
    nextCursor = response.next_cursor
  } while (nextCursor)
}
```

The async generator is embedded as a fuel-indexed run function producing
the full observable trace: the items yielded in order, the argument
object of every `listFn` invocation, the responses received, and the
outcome (normal termination, propagated error, or out of fuel — the last
standing in for a run longer than the supplied fuel).  `listFn` is
modelled as a function of the invocation index and the argument object
(the index models any statefulness of the supplied function) returning
`Except E page`, where `.error e` embeds a rejected promise. -/

/-- `PaginatedList<Item>`: one page of a paginated response. -/
structure PaginatedList (Item : Type) where
  results : List Item
  next_cursor : Option (List Char)
  has_more : Bool
deriving DecidableEq

/-- `Args extends PaginatedArgs`: an argument object with a `start_cursor`
field plus all remaining fields (`extra`). -/
structure PageArgs (α : Type) where
  extra : α
  start_cursor : Option (List Char)
deriving DecidableEq

/-- JS truthiness of a `string | null | undefined` cursor:
`null`/`undefined` and the empty string are falsy. -/
def cursorTruthy : Option (List Char) → Bool
  | none => false
  | some s => !s.isEmpty

/-- Outcome of draining the paginated iterator. -/
inductive RunOutcome (E : Type) where
  | done
  | failed (e : E)
  | outOfFuel
deriving DecidableEq

/-- Observable trace of one run of the pagination loop. -/
structure RunTrace (α Item E : Type) where
  items : List Item
  calls : List (PageArgs α)
  pages : List (PaginatedList Item)
  outcome : RunOutcome E

/-- The body of `iteratePaginatedAPI`'s do-while loop, run to completion
with the given fuel.  `k` is the invocation index, `cursor` the current
`nextCursor` variable. -/
def runPaginated (listFn : Nat → PageArgs α → Except E (PaginatedList Item))
    (firstPageArgs : PageArgs α) :
    Nat → Nat → Option (List Char) → RunTrace α Item E
  | 0, _, _ => ⟨[], [], [], .outOfFuel⟩
  | fuel + 1, k, cursor =>
    let a : PageArgs α := { firstPageArgs with start_cursor := cursor }
    match listFn k a with
    | .error e => ⟨[], [a], [], .failed e⟩
    | .ok page =>
      if cursorTruthy page.next_cursor then
        let t := runPaginated listFn firstPageArgs fuel (k + 1) page.next_cursor
        ⟨page.results ++ t.items, a :: t.calls, page :: t.pages, t.outcome⟩
      else
        ⟨page.results, [a], [page], .done⟩

/-- `iteratePaginatedAPI(listFn, firstPageArgs)`, drained: the do-while
loop starts at invocation 0 with `nextCursor = firstPageArgs.start_cursor`. -/
def iteratePaginatedAPI (listFn : Nat → PageArgs α → Except E (PaginatedList Item))
    (firstPageArgs : PageArgs α) (fuel : Nat) : RunTrace α Item E :=
  runPaginated listFn firstPageArgs fuel 0 firstPageArgs.start_cursor

/-- `collectPaginatedAPI(listFn, firstPageArgs)`: drain the iterator into
an array.  `some (.ok items)` is a fulfilled promise, `some (.error e)` a
rejected one, `none` means the run needed more fuel. -/
def collectPaginatedAPI (listFn : Nat → PageArgs α → Except E (PaginatedList Item))
    (firstPageArgs : PageArgs α) (fuel : Nat) : Option (Except E (List Item)) :=
  let t := iteratePaginatedAPI listFn firstPageArgs fuel
  match t.outcome with
  | .done => some (.ok t.items)
  | .failed e => some (.error e)
  | .outOfFuel => none

/-- A scripted `listFn`: the `k`-th invocation returns the `k`-th page of
the script and rejects with `e` once the script is exhausted. -/
def scriptFn (pages : List (PaginatedList Item)) (e : E) :
    Nat → PageArgs α → Except E (PaginatedList Item) :=
  fun k _ => match pages[k]? with
    | some p => .ok p
    | none => .error e

/-- A finite chain of pages: nonempty, every page but the last has a
truthy `next_cursor`, and the last page's `next_cursor` is falsy. -/
def chainOk : List (PaginatedList Item) → Prop
  | [] => False
  | [p] => cursorTruthy p.next_cursor = false
  | p :: q :: rest => cursorTruthy p.next_cursor = true ∧ chainOk (q :: rest)

end NotionSdk

namespace NotionSdk

/-- Running the engine against a scripted chain: if the script entries from
position `k` on form a chain, the run from invocation `k` yields the
concatenated results, makes one call per page, receives exactly those
pages, and terminates normally. -/
theorem runPaginated_script_chain {α Item E : Type} (e : E) (args0 : PageArgs α) :
    ∀ (rest allPages : List (PaginatedList Item)) (fuel k : Nat)
      (cursor : Option (List Char)),
      chainOk rest → allPages.drop k = rest → rest.length ≤ fuel →
      (runPaginated (scriptFn allPages e) args0 fuel k cursor).items
          = rest.flatMap PaginatedList.results ∧
        (runPaginated (scriptFn allPages e) args0 fuel k cursor).calls.length
          = rest.length ∧
        (runPaginated (scriptFn allPages e) args0 fuel k cursor).pages = rest ∧
        (runPaginated (scriptFn allPages e) args0 fuel k cursor).outcome = .done := by
  intro rest
  induction rest with
  | nil => intro _ _ _ _ h; exact absurd h id
  | cons p tail ih =>
    intro allPages fuel k cursor hchain hdrop hfuel
    obtain ⟨f, rfl⟩ : ∃ f, fuel = f + 1 := by
      cases fuel with
      | zero => simp at hfuel
      | succ f => exact ⟨f, rfl⟩
    have hget : allPages[k]? = some p := by
      have := List.getElem?_drop allPages k 0
      rw [hdrop] at this
      simpa using this.symm
    have hdrop1 : allPages.drop (k + 1) = tail := by
      have := List.drop_drop 1 k allPages
      rw [hdrop] at this
      simpa [Nat.add_comm] using this.symm
    cases tail with
    | nil =>
      have hfalse : cursorTruthy p.next_cursor = false := hchain
      simp [runPaginated, scriptFn, hget, hfalse]
    | cons q tl =>
      obtain ⟨htrue, hchain'⟩ := hchain
      have hlen : (q :: tl).length ≤ f := by
        simpa [Nat.succ_le_succ_iff] using hfuel
      obtain ⟨hi, hc, hp, ho⟩ :=
        ih allPages f (k + 1) p.next_cursor hchain' hdrop1 hlen
      simp only [runPaginated, scriptFn, hget, htrue, if_true]
      refine ⟨?_, ?_, ?_, ?_⟩
      · simpa [List.flatMap_cons] using congrArg (p.results ++ ·) hi
      · simp [hc]
      · simpa using hp
      · simpa using ho

/-- Unfolding: the engine with no fuel. -/
theorem runPaginated_zero {α Item E : Type}
    (listFn : Nat → PageArgs α → Except E (PaginatedList Item))
    (args0 : PageArgs α) (k : Nat) (cursor : Option (List Char)) :
    runPaginated listFn args0 0 k cursor = ⟨[], [], [], .outOfFuel⟩ := rfl

/-- Unfolding: a rejecting invocation produces one call, no items, and the
propagated error. -/
theorem runPaginated_succ_error {α Item E : Type}
    {listFn : Nat → PageArgs α → Except E (PaginatedList Item)}
    {args0 : PageArgs α} {k : Nat} {cursor : Option (List Char)} {e : E} (f : Nat)
    (h : listFn k { args0 with start_cursor := cursor } = .error e) :
    runPaginated listFn args0 (f + 1) k cursor
      = ⟨[], [{ args0 with start_cursor := cursor }], [], .failed e⟩ := by
  simp [runPaginated, h]

/-- Unfolding: a successful invocation with a truthy `next_cursor` recurses. -/
theorem runPaginated_succ_ok_true {α Item E : Type}
    {listFn : Nat → PageArgs α → Except E (PaginatedList Item)}
    {args0 : PageArgs α} {k : Nat} {cursor : Option (List Char)}
    {page : PaginatedList Item} (f : Nat)
    (h : listFn k { args0 with start_cursor := cursor } = .ok page)
    (ht : cursorTruthy page.next_cursor = true) :
    runPaginated listFn args0 (f + 1) k cursor
      = ⟨page.results ++ (runPaginated listFn args0 f (k + 1) page.next_cursor).items,
         { args0 with start_cursor := cursor }
           :: (runPaginated listFn args0 f (k + 1) page.next_cursor).calls,
         page :: (runPaginated listFn args0 f (k + 1) page.next_cursor).pages,
         (runPaginated listFn args0 f (k + 1) page.next_cursor).outcome⟩ := by
  simp [runPaginated, h, ht]

/-- Unfolding: a successful invocation with a falsy `next_cursor` stops. -/
theorem runPaginated_succ_ok_false {α Item E : Type}
    {listFn : Nat → PageArgs α → Except E (PaginatedList Item)}
    {args0 : PageArgs α} {k : Nat} {cursor : Option (List Char)}
    {page : PaginatedList Item} (f : Nat)
    (h : listFn k { args0 with start_cursor := cursor } = .ok page)
    (ht : cursorTruthy page.next_cursor = false) :
    runPaginated listFn args0 (f + 1) k cursor
      = ⟨page.results, [{ args0 with start_cursor := cursor }], [page], .done⟩ := by
  simp [runPaginated, h, ht]

/-- Running the engine against a script whose entries from position `k` on
all have truthy cursors and which then runs out: all scripted pages are
consumed and yielded, one further call is made, and that call's rejection
is propagated unchanged. -/
theorem runPaginated_script_fail {α Item E : Type} (e : E) (args0 : PageArgs α) :
    ∀ (rest allPages : List (PaginatedList Item)) (fuel k : Nat)
      (cursor : Option (List Char)),
      (∀ p ∈ rest, cursorTruthy p.next_cursor = true) →
      allPages.drop k = rest → rest.length + 1 ≤ fuel →
      (runPaginated (scriptFn allPages e) args0 fuel k cursor).items
          = rest.flatMap PaginatedList.results ∧
        (runPaginated (scriptFn allPages e) args0 fuel k cursor).calls.length
          = rest.length + 1 ∧
        (runPaginated (scriptFn allPages e) args0 fuel k cursor).outcome = .failed e := by
  intro rest
  induction rest with
  | nil =>
    intro allPages fuel k cursor _ hdrop hfuel
    obtain ⟨f, rfl⟩ : ∃ f, fuel = f + 1 := by
      cases fuel with
      | zero => simp at hfuel
      | succ f => exact ⟨f, rfl⟩
    have hget : allPages[k]? = none := by
      have := List.getElem?_drop allPages k 0
      rw [hdrop] at this
      simpa using this.symm
    have herr : scriptFn allPages e k { args0 with start_cursor := cursor }
        = .error e := by
      simp [scriptFn, hget]
    rw [runPaginated_succ_error f herr]
    exact ⟨rfl, rfl, rfl⟩
  | cons p tail ih =>
    intro allPages fuel k cursor hall hdrop hfuel
    obtain ⟨f, rfl⟩ : ∃ f, fuel = f + 1 := by
      cases fuel with
      | zero => simp at hfuel
      | succ f => exact ⟨f, rfl⟩
    have hget : allPages[k]? = some p := by
      have := List.getElem?_drop allPages k 0
      rw [hdrop] at this
      simpa using this.symm
    have hdrop1 : allPages.drop (k + 1) = tail := by
      have := List.drop_drop 1 k allPages
      rw [hdrop] at this
      simpa [Nat.add_comm] using this.symm
    have hok : scriptFn allPages e k { args0 with start_cursor := cursor }
        = .ok p := by
      simp [scriptFn, hget]
    have htrue : cursorTruthy p.next_cursor = true := hall p (by simp)
    obtain ⟨hi, hc, ho⟩ := ih allPages (f) (k + 1) p.next_cursor
      (fun q hq => hall q (by simp [hq])) hdrop1 (by simp at hfuel ⊢; omega)
    rw [runPaginated_succ_ok_true f hok htrue]
    exact ⟨by simp [hi], by simp [hc], by simpa using ho⟩

/-- Trace shape of the calls the engine makes, for an arbitrary `listFn`:
every call is `args0` with only `start_cursor` overridden, the first call
carries the starting cursor, and every later call carries the
`next_cursor` of the immediately preceding response. -/
theorem runPaginated_calls_spec {α Item E : Type}
    (listFn : Nat → PageArgs α → Except E (PaginatedList Item)) (args0 : PageArgs α) :
    ∀ (fuel k : Nat) (cursor : Option (List Char)),
      (∀ a ∈ (runPaginated listFn args0 fuel k cursor).calls,
          a = { args0 with start_cursor := a.start_cursor }) ∧
        (∀ a, (runPaginated listFn args0 fuel k cursor).calls[0]? = some a →
          a.start_cursor = cursor) ∧
        (∀ i a p, (runPaginated listFn args0 fuel k cursor).calls[i + 1]? = some a →
          (runPaginated listFn args0 fuel k cursor).pages[i]? = some p →
          a.start_cursor = p.next_cursor) ∧
        (∀ i, i + 1 < (runPaginated listFn args0 fuel k cursor).calls.length →
          i < (runPaginated listFn args0 fuel k cursor).pages.length) := by
  intro fuel
  induction fuel with
  | zero =>
    intro k cursor
    refine ⟨?_, ?_, ?_, ?_⟩ <;> simp [runPaginated_zero]
  | succ f ih =>
    intro k cursor
    rcases hfn : listFn k { args0 with start_cursor := cursor } with e | page
    · rw [runPaginated_succ_error f hfn]
      refine ⟨?_, ?_, ?_, ?_⟩
      · intro a ha
        simp at ha
        simp [ha]
      · intro a ha
        simp at ha
        subst ha
        rfl
      · intro i a p ha
        simp at ha
      · intro i hi
        simp at hi
    · rcases ht : cursorTruthy page.next_cursor with _ | _
      · rw [runPaginated_succ_ok_false f hfn ht]
        refine ⟨?_, ?_, ?_, ?_⟩
        · intro a ha
          simp at ha
          simp [ha]
        · intro a ha
          simp at ha
          subst ha
          rfl
        · intro i a p ha
          simp at ha
        · intro i hi
          simp at hi
      · rw [runPaginated_succ_ok_true f hfn ht]
        obtain ⟨ihall, ihfirst, ihlater, ihlen⟩ := ih (k + 1) page.next_cursor
        refine ⟨?_, ?_, ?_, ?_⟩
        · intro a ha
          simp at ha
          rcases ha with rfl | ha
          · simp
          · exact ihall a ha
        · intro a ha
          simp at ha
          subst ha
          rfl
        · intro i a p ha hp
          cases i with
          | zero =>
            simp at ha hp
            rw [← hp]
            exact ihfirst a ha
          | succ j =>
            simp at ha hp
            exact ihlater j a p ha hp
        · intro i hi
          cases i with
          | zero => simp
          | succ j =>
            simp at hi ⊢
            exact ihlen j (by omega)

/-- Fixture: the two-page script `[{results:[1,2], next_cursor:"c1"},
{results:[3], next_cursor:null}]`. -/
def pagesW : List (PaginatedList Nat) :=
  [⟨[1, 2], some (str "c1"), true⟩, ⟨[3], none, false⟩]

/-- Fixture: argument object with no fields beyond an absent `start_cursor`. -/
def argsW : PageArgs Unit := ⟨(), none⟩

/-- C1: for a scripted `listFn` whose responses form a finite chain ending in
a page with falsy `next_cursor`, `collectPaginatedAPI` returns exactly the
in-order concatenation of the pages' `results`, `listFn` is invoked exactly
once per page of the chain (hence at least once, for any `firstPageArgs`,
including an absent `start_cursor` and an empty first page), and iteration
stops at the first falsy `next_cursor` regardless of `has_more` (the pages,
including their `has_more` flags, are universally quantified). -/
theorem collectPaginatedAPI_chain_correct {α Item E : Type} (e : E)
    (args0 : PageArgs α) (pages : List (PaginatedList Item)) (fuel : Nat)
    (hchain : chainOk pages) (hfuel : pages.length ≤ fuel) :
    collectPaginatedAPI (scriptFn pages e) args0 fuel
        = some (.ok (pages.flatMap PaginatedList.results)) ∧
      (iteratePaginatedAPI (scriptFn pages e) args0 fuel).calls.length
        = pages.length ∧
      1 ≤ (iteratePaginatedAPI (scriptFn pages e) args0 fuel).calls.length := by
  obtain ⟨hi, hc, hp, ho⟩ := runPaginated_script_chain e args0 pages pages fuel 0
    args0.start_cursor hchain (by simp) hfuel
  have hi' : (iteratePaginatedAPI (scriptFn pages e) args0 fuel).items
      = pages.flatMap PaginatedList.results := hi
  have hc' : (iteratePaginatedAPI (scriptFn pages e) args0 fuel).calls.length
      = pages.length := hc
  have ho' : (iteratePaginatedAPI (scriptFn pages e) args0 fuel).outcome = .done := ho
  refine ⟨?_, hc', ?_⟩
  · simp [collectPaginatedAPI, ho', hi']
  · rw [hc']
    cases pages with
    | nil => exact absurd hchain id
    | cons _ _ => simp

/-- Witness for C1 at the spec's concrete two-page script. -/
theorem collectPaginatedAPI_chain_correct_witness :
    chainOk pagesW ∧ pagesW.length ≤ 2 ∧
      collectPaginatedAPI (scriptFn pagesW ()) argsW 2 = some (.ok [1, 2, 3]) ∧
      (iteratePaginatedAPI (scriptFn pagesW ()) argsW 2).calls.length = 2 ∧
      1 ≤ (iteratePaginatedAPI (scriptFn pagesW ()) argsW 2).calls.length := by
  have hch : chainOk pagesW := ⟨rfl, rfl⟩
  have h := collectPaginatedAPI_chain_correct () argsW pagesW 2 hch (by decide)
  exact ⟨hch, by decide, h.1, h.2.1, h.2.2⟩

/-- C2: for a `listFn` that succeeds (with truthy cursors) on its first
`pages.length` invocations and rejects on the next one, the same error is
propagated unchanged (no wrapping) to the caller; all items of the
successful pages have already been yielded by the iterator before the
failure surfaces, and `collectPaginatedAPI` rejects with that same error
and returns no array. -/
theorem paginatedAPI_error_propagation {α Item E : Type} (e : E)
    (args0 : PageArgs α) (pages : List (PaginatedList Item)) (fuel : Nat)
    (hall : ∀ p ∈ pages, cursorTruthy p.next_cursor = true)
    (hfuel : pages.length + 1 ≤ fuel) :
    (iteratePaginatedAPI (scriptFn pages e) args0 fuel).items
        = pages.flatMap PaginatedList.results ∧
      (iteratePaginatedAPI (scriptFn pages e) args0 fuel).calls.length
        = pages.length + 1 ∧
      (iteratePaginatedAPI (scriptFn pages e) args0 fuel).outcome = .failed e ∧
      collectPaginatedAPI (scriptFn pages e) args0 fuel = some (.error e) := by
  obtain ⟨hi, hc, ho⟩ := runPaginated_script_fail e args0 pages pages fuel 0
    args0.start_cursor hall (by simp) hfuel
  have hi' : (iteratePaginatedAPI (scriptFn pages e) args0 fuel).items
      = pages.flatMap PaginatedList.results := hi
  have hc' : (iteratePaginatedAPI (scriptFn pages e) args0 fuel).calls.length
      = pages.length + 1 := hc
  have ho' : (iteratePaginatedAPI (scriptFn pages e) args0 fuel).outcome
      = .failed e := ho
  exact ⟨hi', hc', ho', by simp [collectPaginatedAPI, ho']⟩

/-- Fixture: a first page with a truthy cursor, after which the scripted
`listFn` rejects with error `7`. -/
def pagesFailW : List (PaginatedList Nat) := [⟨[1, 2], some (str "c1"), true⟩]

/-- Witness for C2: rejection on the second invocation propagates error `7`
after the first page's items were produced. -/
theorem paginatedAPI_error_propagation_witness :
    (∀ p ∈ pagesFailW, cursorTruthy p.next_cursor = true) ∧
      pagesFailW.length + 1 ≤ 2 ∧
      (iteratePaginatedAPI (scriptFn pagesFailW 7) argsW 2).items = [1, 2] ∧
      (iteratePaginatedAPI (scriptFn pagesFailW 7) argsW 2).calls.length = 2 ∧
      (iteratePaginatedAPI (scriptFn pagesFailW 7) argsW 2).outcome = .failed 7 ∧
      collectPaginatedAPI (scriptFn pagesFailW 7) argsW 2 = some (.error 7) := by
  have h := paginatedAPI_error_propagation 7 argsW pagesFailW 2
    (by decide) (by decide)
  exact ⟨by decide, by decide, h.1, h.2.1, h.2.2.1, h.2.2.2⟩

/-- C7: every invocation of `listFn` receives `firstPageArgs` with only its
`start_cursor` field overridden (all other fields unchanged — the model is
pure, so `firstPageArgs` itself cannot be mutated): the first call carries
`firstPageArgs.start_cursor`, and call `i+1` carries the `next_cursor` of
response `i`. -/
theorem iteratePaginatedAPI_call_args {α Item E : Type}
    (listFn : Nat → PageArgs α → Except E (PaginatedList Item))
    (args0 : PageArgs α) (fuel : Nat) :
    (∀ a ∈ (iteratePaginatedAPI listFn args0 fuel).calls,
        a = { args0 with start_cursor := a.start_cursor }) ∧
      (∀ a, (iteratePaginatedAPI listFn args0 fuel).calls[0]? = some a →
        a.start_cursor = args0.start_cursor) ∧
      (∀ i a p, (iteratePaginatedAPI listFn args0 fuel).calls[i + 1]? = some a →
        (iteratePaginatedAPI listFn args0 fuel).pages[i]? = some p →
        a.start_cursor = p.next_cursor) ∧
      (∀ i, i + 1 < (iteratePaginatedAPI listFn args0 fuel).calls.length →
        i < (iteratePaginatedAPI listFn args0 fuel).pages.length) :=
  runPaginated_calls_spec listFn args0 fuel 0 args0.start_cursor

/-- Witness for C7: in the two-page run, the second call's `start_cursor`
is the first response's `next_cursor`, and its other fields are unchanged. -/
theorem iteratePaginatedAPI_call_args_witness :
    (iteratePaginatedAPI (scriptFn pagesW ()) argsW 2).calls[1]?
        = some ⟨(), some (str "c1")⟩ ∧
      (iteratePaginatedAPI (scriptFn pagesW ()) argsW 2).pages[0]?
        = some ⟨[1, 2], some (str "c1"), true⟩ ∧
      (⟨(), some (str "c1")⟩ : PageArgs Unit).start_cursor
        = (⟨[1, 2], some (str "c1"), true⟩ : PaginatedList Nat).next_cursor := by
  refine ⟨by decide, by decide, ?_⟩
  exact (iteratePaginatedAPI_call_args (scriptFn pagesW ()) argsW 2).2.2.1 0 _ _
    (by decide) (by decide)

/-! ## Identifier normalizer (`extractNotionId`, `formatUuid`)

```ts
export function extractNotionId(urlOrId: string): string | null {
  if (!urlOrId || typeof urlOrId !== "string") { return null }
  const trimmed = urlOrId.trim()
  const uuidRegex = /^[0-9a-f]{8}-[0-9a-f]{4}-[0-9a-f]{4}-[0-9a-f]{4}-[0-9a-f]{12}$/i
  if (uuidRegex.test(trimmed)) { return trimmed.toLowerCase() }
  const compactUuidRegex = /^[0-9a-f]{32}$/i
  if (compactUuidRegex.test(trimmed)) { return formatUuid(trimmed) }
  const pathMatch = trimmed.match(/\/[^/?#]*-([0-9a-f]{32})(?:[/?#]|$)/i)
  if (pathMatch && pathMatch[1]) { return formatUuid(pathMatch[1]) }
  const queryMatch = trimmed.match(/[?&](?:p|page_id|database_id)=([0-9a-f]{32})/i)
  if (queryMatch && queryMatch[1]) { return formatUuid(queryMatch[1]) }
  const anyMatch = trimmed.match(/([0-9a-f]{32})/i)
  if (anyMatch && anyMatch[1]) { return formatUuid(anyMatch[1]) }
  return null
}
```

The four regexes are embedded as explicit scanners.  JS `String.match`
(without `/g`) returns the leftmost match, so each unanchored regex is a
character-by-character scan whose per-position attempt is spelled out.
For the path regex the greedy `[^/?#]*` followed by `-`, a fixed-width
32-hex capture and a delimiter-or-end forces the unique successful
backtracking split: the capture is the last 32 characters of the maximal
`[^/?#]` run following the `/`, preceded by a `-`. -/

/-- Consume exactly `n` characters satisfying `p`, returning the rest. -/
def chunkRun (p : Char → Bool) : Nat → List Char → Option (List Char)
  | 0, rest => some rest
  | _ + 1, [] => none
  | n + 1, c :: rest => if p c then chunkRun p n rest else none

/-- Consume one expected literal character. -/
def expectChar (c : Char) : List Char → Option (List Char)
  | [] => none
  | d :: rest => if d = c then some rest else none

/-- The anchored 8-4-4-4-12 hyphenated shape over a hex character class. -/
def uuidMatch (p : Char → Bool) (l : List Char) : Bool :=
  ((chunkRun p 8 l).bind (expectChar '-') |>.bind (chunkRun p 4)
      |>.bind (expectChar '-') |>.bind (chunkRun p 4)
      |>.bind (expectChar '-') |>.bind (chunkRun p 4)
      |>.bind (expectChar '-') |>.bind (chunkRun p 12)) == some []

/-- The anchored test
`/^[0-9a-f]{8}-[0-9a-f]{4}-[0-9a-f]{4}-[0-9a-f]{4}-[0-9a-f]{12}$/i`. -/
def isUuid36 (l : List Char) : Bool := uuidMatch isHexCI l

/-- The anchored test `/^[0-9a-f]{32}$/i`. -/
def isCompact32 (l : List Char) : Bool :=
  (l.length == 32) && l.all isHexCI

/-- `formatUuid`: lower-case a 32-char hex string and insert hyphens after
offsets 8, 12, 16, 20 (`clean.slice(0,8)` … `clean.slice(20,32)`). -/
def formatUuid (compactId : List Char) : List Char :=
  let clean := toLowerStr compactId
  clean.take 8 ++ ('-' :: ((clean.drop 8).take 4 ++ ('-' :: ((clean.drop 12).take 4
    ++ ('-' :: ((clean.drop 16).take 4 ++ ('-' :: (clean.drop 20).take 12)))))))

/-- Membership in the `[^/?#]` class. -/
def isSegChar (c : Char) : Bool := !(c == '/' || c == '?' || c == '#')

/-- Attempt of the path regex at a position whose `/` was just consumed. -/
def pathMatchAt (l : List Char) : Option (List Char) :=
  match (l.takeWhile isSegChar).drop ((l.takeWhile isSegChar).length - 33) with
  | c :: cap =>
    if 33 ≤ (l.takeWhile isSegChar).length ∧ c = '-' ∧ cap.all isHexCI = true then
      some cap
    else none
  | [] => none

/-- Leftmost match of `/\/[^\/?#]*-([0-9a-f]{32})(?:[\/?#]|$)/i`. -/
def pathFind : List Char → Option (List Char)
  | [] => none
  | c :: rest =>
    if c = '/' then (pathMatchAt rest).or (pathFind rest) else pathFind rest

/-- Case-insensitive literal match: consume `pat` (given lower-case),
comparing each input character lower-cased;  returns the remainder. -/
def stripCI : List Char → List Char → Option (List Char)
  | [], rest => some rest
  | _ :: _, [] => none
  | p :: ps, c :: cs => if c.toLower = p then stripCI ps cs else none

/-- `([0-9a-f]{32})`: capture exactly 32 hex characters (anything may follow). -/
def capture32 (l : List Char) : Option (List Char) :=
  if (l.take 32).length = 32 ∧ (l.take 32).all isHexCI = true then
    some (l.take 32)
  else none

/-- Attempt of `(?:p|page_id|database_id)=([0-9a-f]{32})` right after a `?`
or `&`.  The three alternatives are pairwise incompatible once their `=` is
included, so the regex's backtracking alternation is a first-match chain. -/
def queryTryAt (l : List Char) : Option (List Char) :=
  match stripCI (str "p=") l with
  | some rest => capture32 rest
  | none =>
    match stripCI (str "page_id=") l with
    | some rest => capture32 rest
    | none =>
      match stripCI (str "database_id=") l with
      | some rest => capture32 rest
      | none => none

/-- Leftmost match of `/[?&](?:p|page_id|database_id)=([0-9a-f]{32})/i`. -/
def queryFind : List Char → Option (List Char)
  | [] => none
  | c :: rest =>
    if c = '?' || c = '&' then (queryTryAt rest).or (queryFind rest)
    else queryFind rest

/-- Leftmost match of the last-resort `/([0-9a-f]{32})/i`. -/
def anyFind : List Char → Option (List Char)
  | [] => none
  | c :: rest => (capture32 (c :: rest)).or (anyFind rest)

/-- `extractNotionId(urlOrId)`.  The empty string is falsy (`!urlOrId`) and
yields `null`; the `typeof` guard is vacuous in this typed model. -/
def extractNotionId (urlOrId : List Char) : Option (List Char) :=
  if urlOrId.isEmpty then none
  else if isUuid36 (trim urlOrId) then some (toLowerStr (trim urlOrId))
  else if isCompact32 (trim urlOrId) then some (formatUuid (trim urlOrId))
  else
    match pathFind (trim urlOrId) with
    | some cap => some (formatUuid cap)
    | none =>
      match queryFind (trim urlOrId) with
      | some cap => some (formatUuid cap)
      | none =>
        match anyFind (trim urlOrId) with
        | some cap => some (formatUuid cap)
        | none => none

/-- The canonical hyphenated lower-case 8-4-4-4-12 serialization
(§3 "NotionIdentifier", canonical form). -/
def isCanonicalUuid (l : List Char) : Bool := uuidMatch isHexLower l

/-- Delete every hyphen (the inverse direction of `formatUuid`). -/
def removeHyphens (l : List Char) : List Char :=
  l.filter (fun c => !(c == '-'))

/-! ### Character-level facts (by finite case analysis over the classes) -/

/-- Lower-casing a hex character yields a lower-case hex character. -/
theorem isHexLower_toLower {c : Char} (h : isHexCI c = true) :
    isHexLower c.toLower = true := by
  have hm : c ∈ hexDigits := by simpa [isHexCI] using h
  fin_cases hm <;> decide

/-- A lower-case hex character is in the case-insensitive class. -/
theorem isHexCI_of_isHexLower {c : Char} (h : isHexLower c = true) :
    isHexCI c = true := by
  have hm : c ∈ hexLowerDigits := by simpa [isHexLower] using h
  fin_cases hm <;> decide

/-- A lower-case hex character is not whitespace. -/
theorem isWs_false_of_isHexLower {c : Char} (h : isHexLower c = true) :
    isWs c = false := by
  have hm : c ∈ hexLowerDigits := by simpa [isHexLower] using h
  fin_cases hm <;> decide

/-- A lower-case hex character is not a hyphen. -/
theorem ne_dash_of_isHexLower {c : Char} (h : isHexLower c = true) : c ≠ '-' := by
  have hm : c ∈ hexLowerDigits := by simpa [isHexLower] using h
  fin_cases hm <;> decide

/-- Lower-casing is the identity on lower-case hex characters. -/
theorem toLower_self_of_isHexLower {c : Char} (h : isHexLower c = true) :
    c.toLower = c := by
  have hm : c ∈ hexLowerDigits := by simpa [isHexLower] using h
  fin_cases hm <;> decide

/-! ### Matcher decomposition lemmas -/

/-- Successful `chunkRun` splits off a prefix of length `n` in the class. -/
theorem chunkRun_eq_some {p : Char → Bool} :
    ∀ {n : Nat} {l r : List Char}, chunkRun p n l = some r →
      ∃ pre, l = pre ++ r ∧ pre.length = n ∧ pre.all p = true := by
  intro n
  induction n with
  | zero =>
    intro l r h
    refine ⟨[], ?_, rfl, rfl⟩
    simpa [chunkRun] using (by simpa [chunkRun] using h : l = r)
  | succ m ih =>
    intro l r h
    cases l with
    | nil => simp [chunkRun] at h
    | cons c cs =>
      rw [chunkRun] at h
      by_cases hc : p c
      · rw [if_pos hc] at h
        obtain ⟨pre, rfl, hlen, hall⟩ := ih h
        exact ⟨c :: pre, rfl, by simp [hlen], by simp [hc, hall]⟩
      · rw [if_neg hc] at h
        exact absurd h (by simp)

/-- `chunkRun` accepts a prefix of length `n` in the class. -/
theorem chunkRun_append {p : Char → Bool} :
    ∀ {pre : List Char} {n : Nat}, pre.length = n → pre.all p = true →
      ∀ (r : List Char), chunkRun p n (pre ++ r) = some r := by
  intro pre
  induction pre with
  | nil =>
    intro n hlen _ r
    subst hlen
    simp [chunkRun]
  | cons c cs ih =>
    intro n hlen hall r
    subst hlen
    simp only [List.all_cons, Bool.and_eq_true] at hall
    simp only [List.length_cons, List.cons_append, chunkRun, hall.1, if_true]
    exact ih rfl hall.2 r

/-- Successful `expectChar` consumes exactly the expected character. -/
theorem expectChar_eq_some {c : Char} {l r : List Char}
    (h : expectChar c l = some r) : l = c :: r := by
  cases l with
  | nil => simp [expectChar] at h
  | cons d ds =>
    rw [expectChar] at h
    by_cases hd : d = c
    · subst hd
      simp at h
      simp [h]
    · rw [if_neg hd] at h
      exact absurd h (by simp)

/-- `expectChar` on its own character. -/
theorem expectChar_cons (c : Char) (r : List Char) :
    expectChar c (c :: r) = some r := by
  simp [expectChar]

/-- The hyphenated-shape predicate holds exactly of five class chunks of
lengths 8, 4, 4, 4, 12 joined by hyphens. -/
theorem uuidMatch_decomp {p : Char → Bool} {l : List Char}
    (h : uuidMatch p l = true) :
    ∃ a b c d e : List Char,
      l = a ++ '-' :: (b ++ '-' :: (c ++ '-' :: (d ++ '-' :: e))) ∧
        a.length = 8 ∧ b.length = 4 ∧ c.length = 4 ∧ d.length = 4 ∧
        e.length = 12 ∧ a.all p = true ∧ b.all p = true ∧ c.all p = true ∧
        d.all p = true ∧ e.all p = true := by
  rw [uuidMatch, beq_iff_eq] at h
  simp only [Option.bind_eq_some] at h
  obtain ⟨r8, ⟨r7, ⟨r6, ⟨r5, ⟨r4, ⟨r3, ⟨r2, ⟨r1, h1, h2⟩, h3⟩, h4⟩, h5⟩, h6⟩, h7⟩, h8⟩, h9⟩ := h
  obtain ⟨a, rfl, ha8, hap⟩ := chunkRun_eq_some h1
  obtain ⟨b, hb, hb4, hbp⟩ := chunkRun_eq_some h3
  obtain ⟨c, hc, hc4, hcp⟩ := chunkRun_eq_some h5
  obtain ⟨d, hd, hd4, hdp⟩ := chunkRun_eq_some h7
  obtain ⟨e, he, he12, hep⟩ := chunkRun_eq_some h9
  rw [expectChar_eq_some h2, hb, expectChar_eq_some h4, hc,
    expectChar_eq_some h6, hd, expectChar_eq_some h8, he, List.append_nil]
  exact ⟨a, b, c, d, e, rfl, ha8, hb4, hc4, hd4, he12, hap, hbp, hcp, hdp, hep⟩

/-- Conversely, five class chunks of the right lengths joined by hyphens
satisfy the hyphenated-shape predicate. -/
theorem uuidMatch_build {p : Char → Bool} {a b c d e : List Char}
    (ha8 : a.length = 8) (hb4 : b.length = 4) (hc4 : c.length = 4)
    (hd4 : d.length = 4) (he12 : e.length = 12)
    (hap : a.all p = true) (hbp : b.all p = true) (hcp : c.all p = true)
    (hdp : d.all p = true) (hep : e.all p = true) :
    uuidMatch p (a ++ '-' :: (b ++ '-' :: (c ++ '-' :: (d ++ '-' :: e)))) = true := by
  rw [uuidMatch, beq_iff_eq]
  rw [chunkRun_append ha8 hap, Option.some_bind, expectChar_cons, Option.some_bind,
    chunkRun_append hb4 hbp, Option.some_bind, expectChar_cons, Option.some_bind,
    chunkRun_append hc4 hcp, Option.some_bind, expectChar_cons, Option.some_bind,
    chunkRun_append hd4 hdp, Option.some_bind, expectChar_cons, Option.some_bind,
    show e = e ++ [] from (List.append_nil e).symm,
    chunkRun_append he12 hep]

/-- Every character of a hyphenated-shape string is in the class or `'-'`. -/
theorem uuidMatch_chars {p : Char → Bool} {l : List Char}
    (h : uuidMatch p l = true) : ∀ x ∈ l, p x = true ∨ x = '-' := by
  obtain ⟨a, b, c, d, e, rfl, -, -, -, -, -, hap, hbp, hcp, hdp, hep⟩ :=
    uuidMatch_decomp h
  simp only [List.all_eq_true] at hap hbp hcp hdp hep
  intro x hx
  simp only [List.mem_append, List.mem_cons] at hx
  rcases hx with hx | rfl | hx | rfl | hx | rfl | hx | rfl | hx
  · exact .inl (hap x hx)
  · exact .inr rfl
  · exact .inl (hbp x hx)
  · exact .inr rfl
  · exact .inl (hcp x hx)
  · exact .inr rfl
  · exact .inl (hdp x hx)
  · exact .inr rfl
  · exact .inl (hep x hx)

/-- A string with no whitespace characters is its own trim. -/
theorem trim_eq_self {l : List Char} (h : ∀ x ∈ l, isWs x = false) :
    trim l = l := by
  have h1 : l.dropWhile isWs = l := by
    cases l with
    | nil => simp
    | cons a as => simp [List.dropWhile_cons, h a (by simp)]
  have h2 : l.reverse.dropWhile isWs = l.reverse := by
    cases hrev : l.reverse with
    | nil => simp
    | cons a as =>
      have ha : a ∈ l := by
        rw [← List.mem_reverse, hrev]
        simp
      simp [List.dropWhile_cons, h a ha]
  rw [trim, h1, h2, List.reverse_reverse]

/-- A pointwise-fixed map is the identity on a list. -/
theorem map_eq_self_of_fixed {f : Char → Char} :
    ∀ {l : List Char}, (∀ x ∈ l, f x = x) → l.map f = l := by
  intro l
  induction l with
  | nil => intro _; rfl
  | cons a as ih =>
    intro h
    simp only [List.map_cons, h a (by simp), List.cons.injEq, true_and]
    exact ih fun x hx => h x (by simp [hx])

/-- Lower-casing is the identity on lower-case hyphenated ids. -/
theorem toLowerStr_eq_self_of_canonical {l : List Char}
    (h : isCanonicalUuid l = true) : toLowerStr l = l := by
  rw [toLowerStr]
  refine map_eq_self_of_fixed fun x hx => ?_
  rcases uuidMatch_chars h x hx with hlo | rfl
  · exact toLower_self_of_isHexLower hlo
  · decide

/-- A canonical id contains no whitespace, so it is its own trim. -/
theorem trim_eq_self_of_canonical {l : List Char}
    (h : isCanonicalUuid l = true) : trim l = l := by
  refine trim_eq_self fun x hx => ?_
  rcases uuidMatch_chars h x hx with hlo | rfl
  · exact isWs_false_of_isHexLower hlo
  · decide

/-- The case-insensitive uuid test accepts every canonical id. -/
theorem isUuid36_of_canonical {l : List Char}
    (h : isCanonicalUuid l = true) : isUuid36 l = true := by
  obtain ⟨a, b, c, d, e, rfl, ha8, hb4, hc4, hd4, he12, hap, hbp, hcp, hdp, hep⟩ :=
    uuidMatch_decomp h
  have hup : ∀ (m : List Char), m.all isHexLower = true → m.all isHexCI = true := by
    intro m hm
    rw [List.all_eq_true] at hm ⊢
    exact fun x hx => isHexCI_of_isHexLower (hm x hx)
  exact uuidMatch_build ha8 hb4 hc4 hd4 he12 (hup a hap) (hup b hbp) (hup c hcp)
    (hup d hdp) (hup e hep)

/-- A canonical id is nonempty. -/
theorem ne_nil_of_canonical {l : List Char}
    (h : isCanonicalUuid l = true) : l ≠ [] := by
  obtain ⟨a, b, c, d, e, rfl, ha8, -⟩ := uuidMatch_decomp h
  cases a with
  | nil => simp at ha8
  | cons _ _ => simp

/-- `formatUuid` of a 32-character hex string is a canonical id. -/
theorem formatUuid_canonical {l : List Char}
    (hlen : l.length = 32) (hhex : l.all isHexCI = true) :
    isCanonicalUuid (formatUuid l) = true := by
  simp only [isCanonicalUuid, formatUuid]
  have hclen : (toLowerStr l).length = 32 := by simp [toLowerStr, hlen]
  have hcall : ∀ x ∈ toLowerStr l, isHexLower x = true := by
    rw [List.all_eq_true] at hhex
    rintro x hx
    rw [toLowerStr, List.mem_map] at hx
    obtain ⟨y, hy, rfl⟩ := hx
    exact isHexLower_toLower (hhex y hy)
  have hsub : ∀ (m : List Char), m.Sublist (toLowerStr l) → m.all isHexLower = true :=
    fun m hm => List.all_eq_true.mpr fun x hx => hcall x (hm.subset hx)
  refine uuidMatch_build ?_ ?_ ?_ ?_ ?_ ?_ ?_ ?_ ?_ ?_
  · simp [hclen]
  · simp [hclen]
  · simp [hclen]
  · simp [hclen]
  · simp [hclen]
  · exact hsub _ (List.take_sublist _ _)
  · exact hsub _ ((List.take_sublist _ _).trans (List.drop_sublist _ _))
  · exact hsub _ ((List.take_sublist _ _).trans (List.drop_sublist _ _))
  · exact hsub _ ((List.take_sublist _ _).trans (List.drop_sublist _ _))
  · exact hsub _ ((List.take_sublist _ _).trans (List.drop_sublist _ _))

/-- Deleting the hyphens of `formatUuid l` (for 32-char hex `l`) recovers
the lower-cased `l`. -/
theorem removeHyphens_formatUuid {l : List Char}
    (hlen : l.length = 32) (hhex : l.all isHexCI = true) :
    removeHyphens (formatUuid l) = toLowerStr l := by
  simp only [formatUuid]
  have hcall : ∀ x ∈ toLowerStr l, isHexLower x = true := by
    rw [List.all_eq_true] at hhex
    rintro x hx
    rw [toLowerStr, List.mem_map] at hx
    obtain ⟨y, hy, rfl⟩ := hx
    exact isHexLower_toLower (hhex y hy)
  have hclen : (toLowerStr l).length = 32 := by simp [toLowerStr, hlen]
  have hnd : ∀ (m : List Char), m.Sublist (toLowerStr l) →
      m.filter (fun c => !(c == '-')) = m := by
    intro m hm
    refine List.filter_eq_self.mpr fun x hx => ?_
    have := ne_dash_of_isHexLower (hcall x (hm.subset hx))
    simpa using this
  have e1 := hnd _ (List.take_sublist 8 (toLowerStr l))
  have e2 := hnd _ ((List.take_sublist 4 _).trans (List.drop_sublist 8 (toLowerStr l)))
  have e3 := hnd _ ((List.take_sublist 4 _).trans (List.drop_sublist 12 (toLowerStr l)))
  have e4 := hnd _ ((List.take_sublist 4 _).trans (List.drop_sublist 16 (toLowerStr l)))
  have e5 := hnd _ ((List.take_sublist 12 _).trans (List.drop_sublist 20 (toLowerStr l)))
  rw [removeHyphens]
  simp only [List.filter_append, List.filter_cons, e1, e2, e3, e4, e5,
    show (!('-' == '-')) = false from rfl, Bool.false_eq_true, if_false]
  have hta : ((toLowerStr l).drop 20).take 12 = (toLowerStr l).drop 20 := by
    refine List.take_of_length_le ?_
    simp [hclen]
  rw [hta]
  have h8 : (toLowerStr l).drop 8 = ((toLowerStr l).drop 8).take 4
      ++ (toLowerStr l).drop 12 := by
    have := List.take_append_drop 4 ((toLowerStr l).drop 8)
    rw [List.drop_drop] at this
    norm_num at this
    exact this.symm
  have h12 : (toLowerStr l).drop 12 = ((toLowerStr l).drop 12).take 4
      ++ (toLowerStr l).drop 16 := by
    have := List.take_append_drop 4 ((toLowerStr l).drop 12)
    rw [List.drop_drop] at this
    norm_num at this
    exact this.symm
  have h16 : (toLowerStr l).drop 16 = ((toLowerStr l).drop 16).take 4
      ++ (toLowerStr l).drop 20 := by
    have := List.take_append_drop 4 ((toLowerStr l).drop 16)
    rw [List.drop_drop] at this
    norm_num at this
    exact this.symm
  conv_rhs => rw [← List.take_append_drop 8 (toLowerStr l), h8, h12, h16]

/-- A successful path-regex attempt captures 32 hex characters. -/
theorem pathMatchAt_spec {l cap : List Char} (h : pathMatchAt l = some cap) :
    cap.length = 32 ∧ cap.all isHexCI = true := by
  unfold pathMatchAt at h
  split at h
  next c rest heq =>
    split at h
    next hg =>
      obtain rfl : rest = cap := by simpa using h
      refine ⟨?_, hg.2.2⟩
      have hlen := congrArg List.length heq
      simp only [List.length_drop, List.length_cons] at hlen
      omega
    next => exact absurd h (by simp)
  next heq => exact absurd h (by simp)

/-- A successful 32-hex capture is 32 hex characters. -/
theorem capture32_spec {l cap : List Char} (h : capture32 l = some cap) :
    cap.length = 32 ∧ cap.all isHexCI = true := by
  unfold capture32 at h
  split at h
  next hg =>
    obtain rfl : l.take 32 = cap := by simpa using h
    exact hg
  next => exact absurd h (by simp)

/-- Any capture produced by the path scan is 32 hex characters. -/
theorem pathFind_spec : ∀ {l cap : List Char}, pathFind l = some cap →
    cap.length = 32 ∧ cap.all isHexCI = true := by
  intro l
  induction l with
  | nil => intro cap h; unfold pathFind at h; exact absurd h (by simp)
  | cons c rest ih =>
    intro cap h
    unfold pathFind at h
    by_cases hc : c = '/'
    · rw [if_pos hc] at h
      rcases hm : pathMatchAt rest with _ | cap2 <;> rw [hm] at h
      · rw [Option.or] at h
        exact ih h
      · obtain rfl : cap2 = cap := by simpa [Option.or] using h
        exact pathMatchAt_spec hm
    · rw [if_neg hc] at h
      exact ih h

/-- Any capture produced by the query-parameter attempt is 32 hex characters. -/
theorem queryTryAt_spec {l cap : List Char} (h : queryTryAt l = some cap) :
    cap.length = 32 ∧ cap.all isHexCI = true := by
  rw [queryTryAt] at h
  rcases h1 : stripCI (str "p=") l with _ | r1 <;> rw [h1] at h
  · rcases h2 : stripCI (str "page_id=") l with _ | r2 <;> rw [h2] at h
    · rcases h3 : stripCI (str "database_id=") l with _ | r3 <;> rw [h3] at h
      · exact absurd h (by simp)
      · exact capture32_spec h
    · exact capture32_spec h
  · exact capture32_spec h

/-- Any capture produced by the query scan is 32 hex characters. -/
theorem queryFind_spec : ∀ {l cap : List Char}, queryFind l = some cap →
    cap.length = 32 ∧ cap.all isHexCI = true := by
  intro l
  induction l with
  | nil => intro cap h; unfold queryFind at h; exact absurd h (by simp)
  | cons c rest ih =>
    intro cap h
    unfold queryFind at h
    by_cases hc : (c = '?' || c = '&') = true
    · rw [if_pos hc] at h
      rcases hm : queryTryAt rest with _ | cap2 <;> rw [hm] at h
      · rw [Option.or] at h
        exact ih h
      · obtain rfl : cap2 = cap := by simpa [Option.or] using h
        exact queryTryAt_spec hm
    · rw [if_neg hc] at h
      exact ih h

/-- Any capture produced by the last-resort scan is 32 hex characters. -/
theorem anyFind_spec : ∀ {l cap : List Char}, anyFind l = some cap →
    cap.length = 32 ∧ cap.all isHexCI = true := by
  intro l
  induction l with
  | nil => intro cap h; unfold anyFind at h; exact absurd h (by simp)
  | cons c rest ih =>
    intro cap h
    unfold anyFind at h
    rcases hm : capture32 (c :: rest) with _ | cap2 <;> rw [hm] at h
    · rw [Option.or] at h
      exact ih h
    · obtain rfl : cap2 = cap := by simpa [Option.or] using h
      exact capture32_spec hm

/-- Lower-casing a case-insensitive hyphenated id yields a canonical id. -/
theorem canonical_toLower_of_uuid36 {l : List Char} (h : isUuid36 l = true) :
    isCanonicalUuid (toLowerStr l) = true := by
  obtain ⟨a, b, c, d, e, rfl, ha8, hb4, hc4, hd4, he12, hap, hbp, hcp, hdp, hep⟩ :=
    uuidMatch_decomp h
  have hlow : ∀ (m : List Char), m.all isHexCI = true →
      (toLowerStr m).all isHexLower = true := by
    intro m hm
    rw [List.all_eq_true] at hm ⊢
    rintro x hx
    rw [toLowerStr, List.mem_map] at hx
    obtain ⟨y, hy, rfl⟩ := hx
    exact isHexLower_toLower (hm y hy)
  have hmap : ∀ (m : List Char), (toLowerStr m).length = m.length := by
    intro m; simp [toLowerStr]
  simp only [toLowerStr, List.map_append, List.map_cons,
    show '-'.toLower = '-' from rfl]
  exact uuidMatch_build (by simp [ha8]) (by simp [hb4]) (by simp [hc4])
    (by simp [hd4]) (by simp [he12]) (hlow a hap) (hlow b hbp) (hlow c hcp)
    (hlow d hdp) (hlow e hep)

/-- Every non-null output of `extractNotionId` is a canonical id. -/
theorem extractNotionId_canonical {x y : List Char}
    (h : extractNotionId x = some y) : isCanonicalUuid y = true := by
  unfold extractNotionId at h
  by_cases he : x.isEmpty = true
  · rw [if_pos he] at h
    exact absurd h (by simp)
  · rw [if_neg he] at h
    by_cases hu : isUuid36 (trim x) = true
    · rw [if_pos hu] at h
      obtain rfl : toLowerStr (trim x) = y := by simpa using h
      exact canonical_toLower_of_uuid36 hu
    · rw [if_neg hu] at h
      by_cases hc : isCompact32 (trim x) = true
      · rw [if_pos hc] at h
        obtain rfl : formatUuid (trim x) = y := by simpa using h
        rw [isCompact32, Bool.and_eq_true, beq_iff_eq] at hc
        exact formatUuid_canonical hc.1 hc.2
      · rw [if_neg hc] at h
        rcases hp : pathFind (trim x) with _ | cap <;> rw [hp] at h
        · rcases hq : queryFind (trim x) with _ | cap <;> rw [hq] at h
          · rcases ha : anyFind (trim x) with _ | cap <;> rw [ha] at h
            · exact absurd h (by simp)
            · obtain rfl : formatUuid cap = y := by simpa using h
              obtain ⟨h1, h2⟩ := anyFind_spec ha
              exact formatUuid_canonical h1 h2
          · obtain rfl : formatUuid cap = y := by simpa using h
            obtain ⟨h1, h2⟩ := queryFind_spec hq
            exact formatUuid_canonical h1 h2
        · obtain rfl : formatUuid cap = y := by simpa using h
          obtain ⟨h1, h2⟩ := pathFind_spec hp
          exact formatUuid_canonical h1 h2

/-- A canonical id is extracted as itself. -/
theorem extractNotionId_of_canonical {y : List Char}
    (hcan : isCanonicalUuid y = true) : extractNotionId y = some y := by
  have hne : y.isEmpty = false := by
    have := ne_nil_of_canonical hcan
    cases y with
    | nil => exact absurd rfl this
    | cons _ _ => rfl
  have htrim : trim y = y := trim_eq_self_of_canonical hcan
  have hu : isUuid36 (trim y) = true := by
    rw [htrim]
    exact isUuid36_of_canonical hcan
  unfold extractNotionId
  rw [hne, hu]
  simp only [Bool.false_eq_true, if_false, if_true, htrim,
    toLowerStr_eq_self_of_canonical hcan]

/-- C9: extraction is idempotent — whenever `extractNotionId x` succeeds,
its output (the canonical hyphenated lower-case form) is a fixed point of
extraction. -/
theorem extractNotionId_idempotent {x y : List Char}
    (h : extractNotionId x = some y) : extractNotionId y = some y :=
  extractNotionId_of_canonical (extractNotionId_canonical h)

/-- Witness for C9 at a compact upper-case id with surrounding whitespace. -/
theorem extractNotionId_idempotent_witness :
    extractNotionId (str "  ABC123DEF456789012345678901234AB ")
        = some (str "abc123de-f456-7890-1234-5678901234ab") ∧
      extractNotionId (str "abc123de-f456-7890-1234-5678901234ab")
        = some (str "abc123de-f456-7890-1234-5678901234ab") := by
  have h1 : extractNotionId (str "  ABC123DEF456789012345678901234AB ")
      = some (str "abc123de-f456-7890-1234-5678901234ab") := by decide
  exact ⟨h1, extractNotionId_idempotent h1⟩

/-- C8: `formatUuid` of any 32-hex string (either letter case) matches the
canonical hyphenated lower-case 8-4-4-4-12 pattern, and deleting its
hyphens recovers the lower-cased input. -/
theorem formatUuid_round_trip (h : List Char)
    (hlen : h.length = 32) (hhex : h.all isHexCI = true) :
    isCanonicalUuid (formatUuid h) = true ∧
      removeHyphens (formatUuid h) = toLowerStr h :=
  ⟨formatUuid_canonical hlen hhex, removeHyphens_formatUuid hlen hhex⟩

/-- Witness for C8 at a mixed-case 32-hex string. -/
theorem formatUuid_round_trip_witness :
    (str "ABC123def456789012345678901234Ab").length = 32 ∧
      (str "ABC123def456789012345678901234Ab").all isHexCI = true ∧
      isCanonicalUuid (formatUuid (str "ABC123def456789012345678901234Ab")) = true ∧
      removeHyphens (formatUuid (str "ABC123def456789012345678901234Ab"))
        = toLowerStr (str "ABC123def456789012345678901234Ab") := by
  have h := formatUuid_round_trip (str "ABC123def456789012345678901234Ab")
    (by decide) (by decide)
  exact ⟨by decide, by decide, h.1, h.2⟩

/-- C3: when the trimmed input is neither a canonical uuid nor a bare
32-hex string, and the path regex finds a capture `A` while a recognized
query parameter carries a different 32-hex value `B`, the result is the
hyphenated lower-case form of `A` — never of `B`; and in the absence of
any path match, a query capture beats the last-resort scan. -/
theorem extractNotionId_path_priority (s A B : List Char)
    (hpath : pathFind (trim s) = some A)
    (hquery : queryFind (trim s) = some B)
    (hne : toLowerStr A ≠ toLowerStr B)
    (hu : isUuid36 (trim s) = false) (hc : isCompact32 (trim s) = false) :
    extractNotionId s = some (formatUuid A) ∧
      extractNotionId s ≠ some (formatUuid B) ∧
      (∀ s2 B2 : List Char, pathFind (trim s2) = none →
        queryFind (trim s2) = some B2 → isUuid36 (trim s2) = false →
        isCompact32 (trim s2) = false →
        extractNotionId s2 = some (formatUuid B2)) := by
  have hse : s.isEmpty = false := by
    cases s with
    | nil =>
      rw [show trim ([] : List Char) = [] from rfl] at hpath
      rw [show pathFind ([] : List Char) = none from rfl] at hpath
      exact absurd hpath (by simp)
    | cons _ _ => rfl
  have hval : extractNotionId s = some (formatUuid A) := by
    unfold extractNotionId
    rw [hse, hu, hc, hpath]
    simp
  refine ⟨hval, ?_, ?_⟩
  · rw [hval]
    intro heq
    obtain ⟨hA1, hA2⟩ := pathFind_spec hpath
    obtain ⟨hB1, hB2⟩ := queryFind_spec hquery
    refine hne ?_
    rw [← removeHyphens_formatUuid hA1 hA2, ← removeHyphens_formatUuid hB1 hB2]
    exact congrArg removeHyphens (by simpa using heq)
  · intro s2 B2 hp2 hq2 hu2 hc2
    have hse2 : s2.isEmpty = false := by
      cases s2 with
      | nil =>
        rw [show trim ([] : List Char) = [] from rfl] at hq2
        rw [show queryFind ([] : List Char) = none from rfl] at hq2
        exact absurd hq2 (by simp)
      | cons _ _ => rfl
    unfold extractNotionId
    rw [hse2, hu2, hc2, hp2, hq2]
    simp

/-- Witness for C3: a URL with a path-embedded id of `a`s and a `p=` query
id of `b`s. -/
theorem extractNotionId_path_priority_witness :
    pathFind (trim (str "/x-aaaaaaaaaaaaaaaaaaaaaaaaaaaaaaaa?p=bbbbbbbbbbbbbbbbbbbbbbbbbbbbbbbb"))
        = some (str "aaaaaaaaaaaaaaaaaaaaaaaaaaaaaaaa") ∧
      queryFind (trim (str "/x-aaaaaaaaaaaaaaaaaaaaaaaaaaaaaaaa?p=bbbbbbbbbbbbbbbbbbbbbbbbbbbbbbbb"))
        = some (str "bbbbbbbbbbbbbbbbbbbbbbbbbbbbbbbb") ∧
      toLowerStr (str "aaaaaaaaaaaaaaaaaaaaaaaaaaaaaaaa")
        ≠ toLowerStr (str "bbbbbbbbbbbbbbbbbbbbbbbbbbbbbbbb") ∧
      isUuid36 (trim (str "/x-aaaaaaaaaaaaaaaaaaaaaaaaaaaaaaaa?p=bbbbbbbbbbbbbbbbbbbbbbbbbbbbbbbb")) = false ∧
      isCompact32 (trim (str "/x-aaaaaaaaaaaaaaaaaaaaaaaaaaaaaaaa?p=bbbbbbbbbbbbbbbbbbbbbbbbbbbbbbbb")) = false ∧
      extractNotionId (str "/x-aaaaaaaaaaaaaaaaaaaaaaaaaaaaaaaa?p=bbbbbbbbbbbbbbbbbbbbbbbbbbbbbbbb")
        = some (str "aaaaaaaa-aaaa-aaaa-aaaa-aaaaaaaaaaaa") ∧
      extractNotionId (str "/x-aaaaaaaaaaaaaaaaaaaaaaaaaaaaaaaa?p=bbbbbbbbbbbbbbbbbbbbbbbbbbbbbbbb")
        ≠ some (str "bbbbbbbb-bbbb-bbbb-bbbb-bbbbbbbbbbbb") := by
  have h := extractNotionId_path_priority
    (str "/x-aaaaaaaaaaaaaaaaaaaaaaaaaaaaaaaa?p=bbbbbbbbbbbbbbbbbbbbbbbbbbbbbbbb")
    (str "aaaaaaaaaaaaaaaaaaaaaaaaaaaaaaaa") (str "bbbbbbbbbbbbbbbbbbbbbbbbbbbbbbbb")
    (by decide) (by decide) (by decide) (by decide) (by decide)
  exact ⟨by decide, by decide, by decide, by decide, by decide, h.1, h.2.1⟩

/-! ## Rich-text renderer (`richTextToPlainText`, `richTextToMarkdown`)

```ts
export function richTextToMarkdown(richText) {
  if (!richText || !Array.isArray(richText)) { return "" }
  return richText.map(item => {
      let text = item.plain_text || ""
      if (item.type === "equation") { return `$` + text + `$` }
      else if (item.type === "mention") { return text }
      if (item.annotations) {
        if (item.annotations.bold) { text = "**" + text + "**" }
        if (item.annotations.italic) { text = "*" + text + "*" }
        if (item.annotations.strikethrough) { text = "~~" + text + "~~" }
        if (item.annotations.underline) { text = "<u>" + text + "</u>" }
        if (item.annotations.code) { text = backtick + text + backtick }
      }
      if (item.type === "text" && item.text?.link) {
        text = "[" + text + "](" + item.text.link.url + ")"
      }
      return text
    }).join("")
}
```
(template literals spelled out).  `RichTextItemResponse` is a closed union
tagged `text | mention | equation`, so the fall-through after the two early
returns is the `text` case. -/

/-- The independent annotation flags (the color enum is never read). -/
structure Annotations where
  bold : Bool
  italic : Bool
  strikethrough : Bool
  underline : Bool
  code : Bool
deriving DecidableEq

/-- The `type` discriminant of `RichTextItemResponse`. -/
inductive RichTextType where
  | text
  | mention
  | equation
deriving DecidableEq

/-- A text span's `link` object (`{ url } | null`). -/
structure TextLink where
  url : List Char
deriving DecidableEq

/-- The `text` payload of a text span; only its `link` is read. -/
structure TextContent where
  link : Option TextLink
deriving DecidableEq

/-- A rich-text span with the fields the renderer reads.  `plain_text` is
optional because the code defends with `item.plain_text || ""`, and
`annotations` because of the `if (item.annotations)` guard. -/
structure RichTextItem where
  type : RichTextType
  plain_text : Option (List Char)
  annotations : Option Annotations
  text : Option TextContent
deriving DecidableEq

/-- `richTextToPlainText`: concatenate each span's `plain_text || ""` in
order, joined with no separator; `null`/`undefined` input yields `""`. -/
def richTextToPlainText (richText : Option (List RichTextItem)) : List Char :=
  match richText with
  | none => []
  | some items => (items.map (fun item => item.plain_text.getD [])).flatten

/-- The `map` body of `richTextToMarkdown` for one span. -/
def renderMarkdownItem (item : RichTextItem) : List Char :=
  if item.type = .equation then str "$" ++ item.plain_text.getD [] ++ str "$"
  else if item.type = .mention then item.plain_text.getD []
  else
    let t1 :=
      match item.annotations with
      | none => item.plain_text.getD []
      | some a =>
        let tb := if a.bold then str "**" ++ item.plain_text.getD [] ++ str "**"
          else item.plain_text.getD []
        let ti := if a.italic then str "*" ++ tb ++ str "*" else tb
        let ts := if a.strikethrough then str "~~" ++ ti ++ str "~~" else ti
        let tu := if a.underline then str "<u>" ++ ts ++ str "</u>" else ts
        if a.code then str "\x60" ++ tu ++ str "\x60" else tu
    match item.text with
    | some tc =>
      match tc.link with
      | some link => str "[" ++ t1 ++ str "](" ++ link.url ++ str ")"
      | none => t1
    | none => t1

/-- `richTextToMarkdown`: render each span and join with no separator;
`null`/`undefined` input yields `""`. -/
def richTextToMarkdown (richText : Option (List RichTextItem)) : List Char :=
  match richText with
  | none => []
  | some items => (items.map renderMarkdownItem).flatten

/-- Conditionally wrap a string between two delimiters. -/
def wrapIf (b : Bool) (pre post mid : List Char) : List Char :=
  if b then pre ++ mid ++ post else mid

/-- The annotation pass as the claim describes it: bold, then italic, then
strikethrough, then underline, each wrapping the accumulated text, and
code last, wrapping everything. -/
def annotationWrap (item : RichTextItem) : List Char :=
  match item.annotations with
  | none => item.plain_text.getD []
  | some a =>
    wrapIf a.code (str "\x60") (str "\x60")
      (wrapIf a.underline (str "<u>") (str "</u>")
        (wrapIf a.strikethrough (str "~~") (str "~~")
          (wrapIf a.italic (str "*") (str "*")
            (wrapIf a.bold (str "**") (str "**") (item.plain_text.getD [])))))

/-- C4: a text span is rendered by the fixed pipeline — bold, italic,
strikethrough, underline (each conditional, each wrapping the accumulated
text), code after all of them, and the `[text](url)` link wrapper as the
very last step; equations render as `$plain_text$` and mentions as bare
`plain_text`, both ignoring annotations and links; span outputs are joined
with no separator; null input renders as `""`; and a `bold`+`code` span
`"x"` renders with the code wrapper outside the bold wrapper. -/
theorem richTextToMarkdown_spec :
    (∀ item : RichTextItem, item.type = .text →
      renderMarkdownItem item =
        (match item.text with
         | some tc =>
           match tc.link with
           | some link =>
             str "[" ++ annotationWrap item ++ str "](" ++ link.url ++ str ")"
           | none => annotationWrap item
         | none => annotationWrap item)) ∧
      (∀ item : RichTextItem, item.type = .equation →
        renderMarkdownItem item = str "$" ++ item.plain_text.getD [] ++ str "$") ∧
      (∀ item : RichTextItem, item.type = .mention →
        renderMarkdownItem item = item.plain_text.getD []) ∧
      richTextToMarkdown none = [] ∧
      (∀ items : List RichTextItem,
        richTextToMarkdown (some items) = (items.map renderMarkdownItem).flatten) ∧
      renderMarkdownItem
          ⟨.text, some (str "x"), some ⟨true, false, false, false, true⟩, none⟩
        = str "\x60**x**\x60" := by
  refine ⟨?_, ?_, ?_, rfl, fun _ => rfl, by decide⟩
  · rintro ⟨ty, pt, ann, tx⟩ hty
    cases hty
    cases ann with
    | none => rfl
    | some a =>
      rcases a with ⟨b1, b2, b3, b4, b5⟩
      simp only [renderMarkdownItem, annotationWrap, wrapIf]
      cases b1 <;> cases b2 <;> cases b3 <;> cases b4 <;> cases b5 <;> rfl
  · rintro ⟨ty, pt, ann, tx⟩ hty
    cases hty
    rfl
  · rintro ⟨ty, pt, ann, tx⟩ hty
    cases hty
    rfl

/-- Witness for C4's text-span pipeline at a bold, linked span. -/
theorem richTextToMarkdown_spec_witness :
    (⟨.text, some (str "x"), some ⟨true, false, false, false, false⟩,
        some ⟨some ⟨str "u"⟩⟩⟩ : RichTextItem).type = .text ∧
      renderMarkdownItem
          ⟨.text, some (str "x"), some ⟨true, false, false, false, false⟩,
            some ⟨some ⟨str "u"⟩⟩⟩
        = str "[**x**](u)" := by
  refine ⟨rfl, ?_⟩
  have h := richTextToMarkdown_spec.1
    ⟨.text, some (str "x"), some ⟨true, false, false, false, false⟩,
      some ⟨some ⟨str "u"⟩⟩⟩ rfl
  rw [h]
  decide

/-- C10: on an array of text spans with all five annotation flags false
(or no annotation object) and no link, markdown rendering and plain-text
rendering agree, both computing the concatenation of the spans'
`plain_text` fields with absent `plain_text` contributing `""` (and both
render null input as `""`). -/
theorem richTextToMarkdown_eq_plainText (items : List RichTextItem)
    (h : ∀ item ∈ items,
      item.type = .text ∧
        (item.annotations = none ∨
          item.annotations = some ⟨false, false, false, false, false⟩) ∧
        item.text.bind TextContent.link = none) :
    richTextToMarkdown (some items) = richTextToPlainText (some items) ∧
      richTextToPlainText (some items)
        = (items.map (fun item => item.plain_text.getD [])).flatten ∧
      richTextToMarkdown none = richTextToPlainText none := by
  refine ⟨?_, rfl, rfl⟩
  have per : ∀ item ∈ items, renderMarkdownItem item = item.plain_text.getD [] := by
    rintro ⟨ty, pt, ann, tx⟩ hm
    obtain ⟨hty, hann, hlink⟩ := h _ hm
    cases hty
    cases tx with
    | none =>
      rcases hann with h' | h' <;> cases h' <;> rfl
    | some tc =>
      rcases tc with ⟨lnk⟩
      have : lnk = none := by
        cases lnk with
        | none => rfl
        | some u => simp [Option.bind] at hlink
      cases this
      rcases hann with h' | h' <;> cases h' <;> rfl
  rw [richTextToMarkdown, richTextToPlainText, List.map_congr_left per]

/-- Witness for C10 at a two-span array. -/
theorem richTextToMarkdown_eq_plainText_witness :
    (∀ item ∈ ([⟨.text, some (str "Hello "), some ⟨false, false, false, false, false⟩, none⟩,
        ⟨.text, some (str "World"), none, some ⟨none⟩⟩] : List RichTextItem),
      item.type = .text ∧
        (item.annotations = none ∨
          item.annotations = some ⟨false, false, false, false, false⟩) ∧
        item.text.bind TextContent.link = none) ∧
      richTextToMarkdown
          (some [⟨.text, some (str "Hello "), some ⟨false, false, false, false, false⟩, none⟩,
            ⟨.text, some (str "World"), none, some ⟨none⟩⟩])
        = str "Hello World" ∧
      richTextToPlainText
          (some [⟨.text, some (str "Hello "), some ⟨false, false, false, false, false⟩, none⟩,
            ⟨.text, some (str "World"), none, some ⟨none⟩⟩])
        = str "Hello World" := by
  have h := richTextToMarkdown_eq_plainText
    [⟨.text, some (str "Hello "), some ⟨false, false, false, false, false⟩, none⟩,
      ⟨.text, some (str "World"), none, some ⟨none⟩⟩] (by decide)
  refine ⟨by decide, ?_, by decide⟩
  rw [h.1]
  decide

/-! ## Object-shape discriminators (`isFullBlock`, `isFullPage`, …)

Runtime duck-typing checks (`response.object === "…"`, `"field" in
response`) are embedded over a record carrying the `object` discriminant
and presence flags for the probed fields.  The predicates are total Lean
functions, which embeds "must not throw for any well-formed
ObjectResponse-shaped input". -/

/-- An `ObjectResponse`-shaped value: `object` discriminant plus presence
flags for `type` and `url` (the only fields the predicates probe). -/
structure ObjResponse where
  object : List Char
  hasTypeField : Bool
  hasUrlField : Bool
deriving DecidableEq

/-- A `UserObjectResponse | PartialUserObjectResponse`-shaped value. -/
structure UserResponse where
  hasTypeField : Bool
deriving DecidableEq

/-- A `CommentObjectResponse | PartialCommentObjectResponse`-shaped value. -/
structure CommentResponse where
  hasCreatedByField : Bool
deriving DecidableEq

/-- `isFullBlock`: `response.object === "block" && "type" in response`. -/
def isFullBlock (response : ObjResponse) : Bool :=
  response.object == str "block" && response.hasTypeField

/-- `isFullPage`: `response.object === "page" && "url" in response`. -/
def isFullPage (response : ObjResponse) : Bool :=
  response.object == str "page" && response.hasUrlField

/-- `isFullDataSource`: `response.object === "data_source"` (no secondary
field check). -/
def isFullDataSource (response : ObjResponse) : Bool :=
  response.object == str "data_source"

/-- `isFullDatabase`: `response.object === "database"` (no secondary field
check). -/
def isFullDatabase (response : ObjResponse) : Bool :=
  response.object == str "database"

/-- `isFullPageOrDataSource`: dispatch on the `object` discriminant. -/
def isFullPageOrDataSource (response : ObjResponse) : Bool :=
  if response.object == str "data_source" then isFullDataSource response
  else isFullPage response

/-- `isFullUser`: `"type" in response`. -/
def isFullUser (response : UserResponse) : Bool := response.hasTypeField

/-- `isFullComment`: `"created_by" in response`. -/
def isFullComment (response : CommentResponse) : Bool :=
  response.hasCreatedByField

/-- C6: each fullness predicate holds exactly under its single documented
condition (and, being a total function, never throws); consequently a full
fixture with the distinguishing field present tests `true` and the same
fixture with that field deleted tests `false`. -/
theorem fullness_predicates_spec :
    (∀ r : ObjResponse,
        isFullBlock r = true ↔ r.object = str "block" ∧ r.hasTypeField = true) ∧
      (∀ r : ObjResponse,
        isFullPage r = true ↔ r.object = str "page" ∧ r.hasUrlField = true) ∧
      (∀ r : ObjResponse,
        isFullDataSource r = true ↔ r.object = str "data_source") ∧
      (∀ r : ObjResponse,
        isFullDatabase r = true ↔ r.object = str "database") ∧
      (∀ r : ObjResponse, r.object = str "data_source" →
        isFullPageOrDataSource r = isFullDataSource r) ∧
      (∀ r : ObjResponse, r.object ≠ str "data_source" →
        isFullPageOrDataSource r = isFullPage r) ∧
      (∀ u : UserResponse, isFullUser u = true ↔ u.hasTypeField = true) ∧
      (∀ c : CommentResponse,
        isFullComment c = true ↔ c.hasCreatedByField = true) ∧
      (∀ r : ObjResponse, r.object = str "block" →
        isFullBlock { r with hasTypeField := true } = true ∧
          isFullBlock { r with hasTypeField := false } = false) ∧
      (∀ r : ObjResponse, r.object = str "page" →
        isFullPage { r with hasUrlField := true } = true ∧
          isFullPage { r with hasUrlField := false } = false) ∧
      (isFullUser ⟨true⟩ = true ∧ isFullUser ⟨false⟩ = false) ∧
      (isFullComment ⟨true⟩ = true ∧ isFullComment ⟨false⟩ = false) := by
  refine ⟨?_, ?_, ?_, ?_, ?_, ?_, ?_, ?_, ?_, ?_, ⟨rfl, rfl⟩, ⟨rfl, rfl⟩⟩
  · intro r; simp [isFullBlock]
  · intro r; simp [isFullPage]
  · intro r; simp [isFullDataSource]
  · intro r; simp [isFullDatabase]
  · intro r hr; rw [isFullPageOrDataSource, if_pos (by simpa using hr)]
  · intro r hr; rw [isFullPageOrDataSource, if_neg (by simpa using hr)]
  · intro u; simp [isFullUser]
  · intro c; simp [isFullComment]
  · intro r hr; constructor <;> simp [isFullBlock, hr]
  · intro r hr; constructor <;> simp [isFullPage, hr]

/-- Witness for C6 at concrete block and page fixtures. -/
theorem fullness_predicates_spec_witness :
    (⟨str "block", true, false⟩ : ObjResponse).object = str "block" ∧
      isFullBlock ⟨str "block", true, false⟩ = true ∧
      isFullBlock ⟨str "block", false, false⟩ = false ∧
      (⟨str "data_source", false, false⟩ : ObjResponse).object = str "data_source" ∧
      isFullPageOrDataSource ⟨str "data_source", false, false⟩
        = isFullDataSource ⟨str "data_source", false, false⟩ := by
  have h9 := fullness_predicates_spec.2.2.2.2.2.2.2.2.1
    ⟨str "block", true, false⟩ (by decide)
  have h5 := fullness_predicates_spec.2.2.2.2.1
    ⟨str "data_source", false, false⟩ (by decide)
  exact ⟨by decide, h9.1, by decide, by decide, h5⟩

/-! ## Page property extractor (`getPageProperty`) -/

/-- A select/status/multi-select option object; only `name` is read. -/
structure SelectOption where
  name : List Char
deriving DecidableEq

/-- A page property, tagged as in the TS `property.type` union.  The kinds
whose payload the extractor returns unmodified carry an opaque payload of
type `α`; `unknownProp` embeds a property whose tag falls to the switch's
`default` arm. -/
inductive PageProp (α : Type) where
  | title (v : List RichTextItem)
  | rich_text (v : List RichTextItem)
  | number (v : α)
  | select (v : Option SelectOption)
  | multi_select (v : List SelectOption)
  | date (v : α)
  | people (v : α)
  | files (v : α)
  | checkbox (v : α)
  | url (v : α)
  | email (v : α)
  | phone_number (v : α)
  | formula (v : α)
  | relation (v : α)
  | rollup (v : α)
  | created_time (v : α)
  | created_by (v : α)
  | last_edited_time (v : α)
  | last_edited_by (v : α)
  | status (v : Option SelectOption)
  | unique_id (v : α)
  | verification (v : α)
  | button (v : α)
  | unknownProp (tag : List Char)

/-- The `unknown | null` value returned by `getPageProperty`. -/
inductive PropValue (α : Type) where
  | null
  | strVal (s : List Char)
  | strList (l : List (List Char))
  | raw (v : α)
deriving DecidableEq

/-- A `PageObjectResponse | PartialPageObjectResponse`-shaped page:
`object` discriminant, `url` presence flag, and the `properties` map
(`none` embeds an absent map), modelled as an association list keyed by
property name. -/
structure PageResponse (α : Type) where
  object : List Char
  hasUrlField : Bool
  properties : Option (List (List Char × PageProp α))

/-- `isFullPage` specialized to the page model used by the extractor
(`page.object === "page" && "url" in page`). -/
def pageIsFull {α : Type} (page : PageResponse α) : Bool :=
  page.object == str "page" && page.hasUrlField

/-- `getPageProperty(page, propertyName)`. -/
def getPageProperty {α : Type} (page : PageResponse α)
    (propertyName : List Char) : PropValue α :=
  if !(pageIsFull page) then .null
  else
    match page.properties with
    | none => .null
    | some props =>
      match List.lookup propertyName props with
      | none => .null
      | some property =>
        match property with
        | .title v => .strVal (richTextToPlainText (some v))
        | .rich_text v => .strVal (richTextToPlainText (some v))
        | .number v => .raw v
        | .select v =>
          match v with
          | some s => .strVal s.name
          | none => .null
        | .multi_select v => .strList (v.map SelectOption.name)
        | .date v => .raw v
        | .people v => .raw v
        | .files v => .raw v
        | .checkbox v => .raw v
        | .url v => .raw v
        | .email v => .raw v
        | .phone_number v => .raw v
        | .formula v => .raw v
        | .relation v => .raw v
        | .rollup v => .raw v
        | .created_time v => .raw v
        | .created_by v => .raw v
        | .last_edited_time v => .raw v
        | .last_edited_by v => .raw v
        | .status v =>
          match v with
          | some s => .strVal s.name
          | none => .null
        | .unique_id v => .raw v
        | .verification v => .raw v
        | .button v => .raw v
        | .unknownProp _ => .null

/-- Unfolding of `getPageProperty` at a found property. -/
theorem getPageProperty_lookup {α : Type} (page : PageResponse α)
    (name : List Char) (props : List (List Char × PageProp α))
    (pr : PageProp α) (hf : pageIsFull page = true)
    (hp : page.properties = some props)
    (hl : List.lookup name props = some pr) :
    getPageProperty page name =
      (match pr with
       | .title v => .strVal (richTextToPlainText (some v))
       | .rich_text v => .strVal (richTextToPlainText (some v))
       | .number v => .raw v
       | .select v =>
         match v with
         | some s => .strVal s.name
         | none => .null
       | .multi_select v => .strList (v.map SelectOption.name)
       | .date v => .raw v
       | .people v => .raw v
       | .files v => .raw v
       | .checkbox v => .raw v
       | .url v => .raw v
       | .email v => .raw v
       | .phone_number v => .raw v
       | .formula v => .raw v
       | .relation v => .raw v
       | .rollup v => .raw v
       | .created_time v => .raw v
       | .created_by v => .raw v
       | .last_edited_time v => .raw v
       | .last_edited_by v => .raw v
       | .status v =>
         match v with
         | some s => .strVal s.name
         | none => .null
       | .unique_id v => .raw v
       | .verification v => .raw v
       | .button v => .raw v
       | .unknownProp _ => .null) := by
  cases pr <;>
    (try (rename_i v; rcases v with _ | _)) <;>
    simp [getPageProperty, hf, hp, hl]

/-- C5: `getPageProperty` returns null when the page is not full, has no
properties map, or the name is not a key; otherwise it dispatches on the
property's type tag — title/rich_text render to plain text, select/status
yield the nested object's name (null when the nested object is null),
multi_select yields the array of names, every other recognized kind yields
its raw payload unmodified, and an unrecognized tag yields null (the
function is total, so no exception is possible). -/
theorem getPageProperty_spec {α : Type} :
    (∀ (page : PageResponse α) (name : List Char), pageIsFull page = false →
        getPageProperty page name = .null) ∧
      (∀ (page : PageResponse α) (name : List Char), page.properties = none →
        getPageProperty page name = .null) ∧
      (∀ (page : PageResponse α) (name : List Char) props,
        page.properties = some props → List.lookup name props = none →
        getPageProperty page name = .null) ∧
      (∀ (page : PageResponse α) (name : List Char) props,
        pageIsFull page = true → page.properties = some props →
        (∀ v, List.lookup name props = some (.title v) →
            getPageProperty page name = .strVal (richTextToPlainText (some v))) ∧
          (∀ v, List.lookup name props = some (.rich_text v) →
            getPageProperty page name = .strVal (richTextToPlainText (some v))) ∧
          (∀ s, List.lookup name props = some (.select (some s)) →
            getPageProperty page name = .strVal s.name) ∧
          (List.lookup name props = some (.select none) →
            getPageProperty page name = .null) ∧
          (∀ s, List.lookup name props = some (.status (some s)) →
            getPageProperty page name = .strVal s.name) ∧
          (List.lookup name props = some (.status none) →
            getPageProperty page name = .null) ∧
          (∀ l, List.lookup name props = some (.multi_select l) →
            getPageProperty page name = .strList (l.map SelectOption.name)) ∧
          (∀ v, List.lookup name props = some (.number v) →
            getPageProperty page name = .raw v) ∧
          (∀ v, List.lookup name props = some (.date v) →
            getPageProperty page name = .raw v) ∧
          (∀ v, List.lookup name props = some (.people v) →
            getPageProperty page name = .raw v) ∧
          (∀ v, List.lookup name props = some (.files v) →
            getPageProperty page name = .raw v) ∧
          (∀ v, List.lookup name props = some (.checkbox v) →
            getPageProperty page name = .raw v) ∧
          (∀ v, List.lookup name props = some (.url v) →
            getPageProperty page name = .raw v) ∧
          (∀ v, List.lookup name props = some (.email v) →
            getPageProperty page name = .raw v) ∧
          (∀ v, List.lookup name props = some (.phone_number v) →
            getPageProperty page name = .raw v) ∧
          (∀ v, List.lookup name props = some (.formula v) →
            getPageProperty page name = .raw v) ∧
          (∀ v, List.lookup name props = some (.relation v) →
            getPageProperty page name = .raw v) ∧
          (∀ v, List.lookup name props = some (.rollup v) →
            getPageProperty page name = .raw v) ∧
          (∀ v, List.lookup name props = some (.created_time v) →
            getPageProperty page name = .raw v) ∧
          (∀ v, List.lookup name props = some (.created_by v) →
            getPageProperty page name = .raw v) ∧
          (∀ v, List.lookup name props = some (.last_edited_time v) →
            getPageProperty page name = .raw v) ∧
          (∀ v, List.lookup name props = some (.last_edited_by v) →
            getPageProperty page name = .raw v) ∧
          (∀ v, List.lookup name props = some (.unique_id v) →
            getPageProperty page name = .raw v) ∧
          (∀ v, List.lookup name props = some (.verification v) →
            getPageProperty page name = .raw v) ∧
          (∀ v, List.lookup name props = some (.button v) →
            getPageProperty page name = .raw v) ∧
          (∀ tag, List.lookup name props = some (.unknownProp tag) →
            getPageProperty page name = .null)) := by
  refine ⟨?_, ?_, ?_, ?_⟩
  · intro page name h
    unfold getPageProperty
    rw [h]
    rfl
  · intro page name h
    unfold getPageProperty
    rw [h]
    split <;> rfl
  · intro page name props hp hl
    unfold getPageProperty
    rw [hp]
    split
    · rfl
    · dsimp only
      rw [hl]
  · intro page name props hf hp
    refine ⟨?_, ?_, ?_, ?_, ?_, ?_, ?_, ?_, ?_, ?_, ?_, ?_, ?_, ?_, ?_, ?_,
      ?_, ?_, ?_, ?_, ?_, ?_, ?_, ?_, ?_, ?_⟩ <;>
      first
      | exact fun v hl => getPageProperty_lookup page name props _ hf hp hl
      | exact fun hl => getPageProperty_lookup page name props _ hf hp hl

/-- Fixture: a full page with a select property, an unrecognized-type
property, and a raw-payload property. -/
def propsW : List (List Char × PageProp Unit) :=
  [(str "Status", .select (some ⟨str "Active"⟩)),
   (str "Weird", .unknownProp (str "unsupported_kind")),
   (str "Count", .number ())]

/-- Fixture: the page carrying `propsW`. -/
def pageW : PageResponse Unit := ⟨str "page", true, some propsW⟩

/-- Witness for C5: select extraction, unknown-tag null, and missing-key
null at the concrete fixture. -/
theorem getPageProperty_spec_witness :
    pageIsFull pageW = true ∧
      pageW.properties = some propsW ∧
      List.lookup (str "Status") propsW = some (.select (some ⟨str "Active"⟩)) ∧
      List.lookup (str "Weird") propsW
        = some (.unknownProp (str "unsupported_kind")) ∧
      List.lookup (str "Missing") propsW = none ∧
      getPageProperty pageW (str "Status") = .strVal (str "Active") ∧
      getPageProperty pageW (str "Weird") = .null ∧
      getPageProperty pageW (str "Missing") = .null := by
  have hsel := ((@getPageProperty_spec Unit).2.2.2 pageW (str "Status") propsW
    rfl rfl).2.2.1 ⟨str "Active"⟩ rfl
  have hunk := ((@getPageProperty_spec Unit).2.2.2 pageW (str "Weird") propsW
    rfl rfl).2.2.2.2.2.2.2.2.2.2.2.2.2.2.2.2.2.2.2.2.2.2.2.2.2
    (str "unsupported_kind") rfl
  have hmiss := (@getPageProperty_spec Unit).2.2.1 pageW (str "Missing") propsW
    rfl rfl
  exact ⟨rfl, rfl, rfl, rfl, rfl, hsel, hunk, hmiss⟩
